import Mathlib

/-!
# Device-command QR frames (`internal/qr_protoc.go`)

A shallow embedding of the frame parser and its CRC-8 checksum.

* A Go `byte` is a `Nat`; a `[]byte` is a `List Nat`.  `IsBytes` says that every
  element is below 256, which is what the Go type guarantees.
* Go indexing and slicing can panic.  `goIndex` and `goSlice` return `none`
  exactly when the Go run time would panic, and every function that indexes
  or slices returns an `Option`: `none` is a panic, `some r` a normal return.
* Go's `int` arithmetic on lengths is done in `Int`, so `len(frame) - 1` may be
  negative in the model just as it may be in the program.
* A nil slice and an empty slice are both the empty list.
* A Go `string` is the list of its bytes.  `hex.DecodeString` is library code;
  its model returns `none` for a non-nil `err`, which is not a panic.
-/

namespace QrProtoc

/-! ## Go run-time primitives -/

/-- Every element of the list is a value of Go's `byte` type. -/
def IsBytes (l : List Nat) : Prop := ∀ b ∈ l, b < 256

instance (l : List Nat) : Decidable (IsBytes l) := by
  unfold IsBytes; infer_instance

/-- Go's `s[i]` on a slice: a panic (`none`) unless `0 <= i < len(s)`. -/
def goIndex (s : List Nat) (i : Int) : Option Nat :=
  if 0 ≤ i ∧ i < (s.length : Int) then s[i.toNat]? else none

/-- Go's `s[lo:hi]` on a slice: `none` unless `0 <= lo <= hi <= len(s)`.  Go
panics only when `hi` exceeds the capacity, which is at least the length, so
whenever this returns `some` the program does not panic. -/
def goSlice (s : List Nat) (lo hi : Int) : Option (List Nat) :=
  if 0 ≤ lo ∧ lo ≤ hi ∧ hi ≤ (s.length : Int) then
    some ((s.take hi.toNat).drop lo.toNat)
  else none

/-! ## Constants -/

def HeaderByte : Nat := 0xA8
def TypeByteReboot : Nat := 0x01
def TypeByteClear : Nat := 0x02
def TypeByteShutdown : Nat := 0x03
def minFrameLen : Int := 4

/-- The key set of the Go map `validTypes`. -/
def validTypes : List Nat := [TypeByteReboot, TypeByteClear, TypeByteShutdown]

/-! ## CRC-8 -/

/-- The constant `polynomial := byte(0x07)` of `crc8`. -/
def polynomial : Nat := 0x07

/-- One pass through the body of the inner loop of `crc8`. -/
def crc8Bit (crc : Nat) : Nat :=
  if crc &&& 0x80 ≠ 0 then ((crc <<< 1) ^^^ polynomial) &&& 0xFF
  else (crc <<< 1) &&& 0xFF

/-- One pass through the body of the outer loop of `crc8`: `crc ^= b`, then
the inner loop for `bit` from 0 to 7. -/
def crc8Byte (crc b : Nat) : Nat :=
  (List.range 8).foldl (fun c _ => crc8Bit c) (crc ^^^ b)

/-- The function `crc8`: the register starts at `0x00` and absorbs the bytes of
`data` in order. -/
def crc8 (data : List Nat) : Nat :=
  data.foldl crc8Byte 0x00

/-! ## Parsing -/

/-- The three named results `(typ, content, ok)` of `parseDeviceFrame`. -/
structure ParseResult where
  typ : Nat
  content : List Nat
  ok : Bool
  deriving DecidableEq

/-- The function `parseDeviceFrame`.  The named results start at their zero
values (`0`, nil, `false`); a bare `return` hands back whatever they hold at
that point, so the returns after `typ = frame[1]` carry that byte. -/
def parseDeviceFrame (frame : List Nat) : Option ParseResult :=
  if (frame.length : Int) < minFrameLen then some ⟨0, [], false⟩ else
  (goIndex frame 0).bind fun b0 =>
  if b0 ≠ HeaderByte then some ⟨0, [], false⟩ else
  (goIndex frame 1).bind fun typ =>
  if typ ∉ validTypes then some ⟨typ, [], false⟩ else
  (goIndex frame 2).bind fun b2 =>
  let contentLen : Int := (b2 : Int)
  if contentLen ≠ (frame.length : Int) - minFrameLen then some ⟨typ, [], false⟩ else
  (goSlice frame 0 ((frame.length : Int) - 1)).bind fun body =>
  (goIndex frame ((frame.length : Int) - 1)).bind fun last =>
  if crc8 body ≠ last then some ⟨typ, [], false⟩ else
  if contentLen > 0 then
    (goSlice frame 3 (3 + contentLen)).bind fun content =>
    some ⟨typ, content, true⟩
  else some ⟨typ, [], true⟩

/-- The function `IsDeviceQR`: the `ok` result of `parseDeviceFrame`. -/
def IsDeviceQR (frame : List Nat) : Option Bool :=
  (parseDeviceFrame frame).map fun r => r.ok

/-- The function `isTypeFrame`.  The `||` is short-circuit: `frame[1]` is read
only when `frame[0] == HeaderByte`. -/
def isTypeFrame (frame : List Nat) (wantType : Nat) : Option Bool :=
  if (frame.length : Int) < minFrameLen then some false else
  (goIndex frame 0).bind fun b0 =>
  (if b0 ≠ HeaderByte then some true
   else (goIndex frame 1).map fun b1 => decide (b1 ≠ wantType)).bind fun bad =>
  if bad then some false else
  (goIndex frame 2).bind fun b2 =>
  let contentLen : Int := (b2 : Int)
  if contentLen ≠ (frame.length : Int) - minFrameLen then some false else
  (goSlice frame 0 ((frame.length : Int) - 1)).bind fun body =>
  (goIndex frame ((frame.length : Int) - 1)).bind fun last =>
  some (decide (crc8 body = last))

def IsRebootQR (frame : List Nat) : Option Bool := isTypeFrame frame TypeByteReboot
def IsClearQR (frame : List Nat) : Option Bool := isTypeFrame frame TypeByteClear
def IsShutdownQR (frame : List Nat) : Option Bool := isTypeFrame frame TypeByteShutdown

/-! ## String entry points -/

/-- Modelled from the spec: the helper `fromHexChar` of Go's `encoding/hex`,
which is not under `src/`.  The value of one hexadecimal digit given as a byte
of the string (`'0'`-`'9'`, `'a'`-`'f'`, `'A'`-`'F'`); `none` for any other
byte. -/
def fromHexChar (c : Nat) : Option Nat :=
  if 0x30 ≤ c ∧ c ≤ 0x39 then some (c - 0x30)
  else if 0x61 ≤ c ∧ c ≤ 0x66 then some (c - 0x61 + 10)
  else if 0x41 ≤ c ∧ c ≤ 0x46 then some (c - 0x41 + 10)
  else none

/-- Modelled from the spec: `hex.DecodeString` of Go's `encoding/hex`, which is
not under `src/`.  The string is given as its bytes.  Standard hex decoding:
each pair of digits gives the byte `(a << 4) | b`; `none` stands for a non-nil
`err`, returned for an odd length or a byte that is not a hexadecimal digit. -/
def hexDecodeString : List Nat → Option (List Nat)
  | [] => some []
  | [_] => none
  | p :: q :: rest =>
    (fromHexChar p).bind fun a =>
    (fromHexChar q).bind fun b =>
    (hexDecodeString rest).bind fun ds =>
    some (((a <<< 4) ||| b) :: ds)

/-- The function `IsDeviceQRString`; `none` of `hexDecodeString` is the branch
`err != nil`. -/
def IsDeviceQRString (s : List Nat) : Option Bool :=
  match hexDecodeString s with
  | none => some false
  | some b => IsDeviceQR b

/-- The function `IsRebootQRString`. -/
def IsRebootQRString (s : List Nat) : Option Bool :=
  match hexDecodeString s with
  | none => some false
  | some b => IsRebootQR b

/-- The function `IsClearQRString`. -/
def IsClearQRString (s : List Nat) : Option Bool :=
  match hexDecodeString s with
  | none => some false
  | some b => IsClearQR b

/-- The function `IsShutdownQRString`. -/
def IsShutdownQRString (s : List Nat) : Option Bool :=
  match hexDecodeString s with
  | none => some false
  | some b => IsShutdownQR b

/-- The byte is an ASCII hexadecimal digit, upper or lower case. -/
def IsHexDigit (c : Nat) : Prop :=
  (0x30 ≤ c ∧ c ≤ 0x39) ∨ (0x41 ≤ c ∧ c ≤ 0x46) ∨ (0x61 ≤ c ∧ c ≤ 0x66)

instance (c : Nat) : Decidable (IsHexDigit c) := by
  unfold IsHexDigit; infer_instance

/-- The bytes of a string literal of ASCII characters. -/
def asciiBytes (s : String) : List Nat := s.toList.map Char.toNat

/-! ## The frame format as the specification words it -/

/-- The five structural checks of the specification, on the raw bytes:
minimum length, header byte, type membership, length consistency and checksum
match. -/
def FiveChecks (f : List Nat) : Prop :=
  4 ≤ f.length ∧
  f[0]? = some 0xA8 ∧
  (f[1]? = some 0x01 ∨ f[1]? = some 0x02 ∨ f[1]? = some 0x03) ∧
  f[2]? = some (f.length - 4) ∧
  f.getLast? = some (crc8 f.dropLast)

instance (f : List Nat) : Decidable (FiveChecks f) := by
  unfold FiveChecks; infer_instance

/-- The byte sequence `f` with bit `k` of byte `i` inverted and every other bit
left alone; `f` itself when there is no byte `i`. -/
def flipBit (f : List Nat) (i k : Nat) : List Nat :=
  match f[i]? with
  | some b => f.set i (b ^^^ (1 <<< k))
  | none => f

/-- The eight bits of a byte, most significant bit first. -/
def bitsOfByte (b : Nat) : List Bool :=
  [b.testBit 7, b.testBit 6, b.testBit 5, b.testBit 4,
   b.testBit 3, b.testBit 2, b.testBit 1, b.testBit 0]

/-- The bits of a byte sequence: first byte first, most significant bit
first. -/
def messageBits : List Nat → List Bool
  | [] => []
  | b :: d => bitsOfByte b ++ messageBits d

/-- A bit string read as a polynomial in `x` whose leading coefficient is the
first bit (Horner's rule), in any semiring. -/
def evalBits {R : Type} [Semiring R] (x : R) (bits : List Bool) : R :=
  bits.foldl (fun acc b => acc * x + (if b then 1 else 0)) 0

/-- The low `k` bits of `n` as coefficients of `x ^ 0`, ..., `x ^ (k - 1)`. -/
def bitSum {R : Type} [Semiring R] (x : R) (k n : Nat) : R :=
  ∑ i ∈ Finset.range k, (if n.testBit i then 1 else 0) * x ^ i

/-! ## Basic facts about the run-time primitives -/

theorem goIndex_natCast (s : List Nat) (n : Nat) : goIndex s (n : Int) = s[n]? := by
  unfold goIndex
  by_cases h : n < s.length
  · have h1 : (0 : Int) ≤ (n : Int) ∧ (n : Int) < (s.length : Int) := ⟨by omega, by omega⟩
    rw [if_pos h1, Int.toNat_ofNat]
  · have h1 : ¬ ((0 : Int) ≤ (n : Int) ∧ (n : Int) < (s.length : Int)) := by omega
    rw [if_neg h1, List.getElem?_eq_none (by omega)]

theorem goSlice_natCast (s : List Nat) (lo hi : Nat) (h1 : lo ≤ hi) (h2 : hi ≤ s.length) :
    goSlice s (lo : Int) (hi : Int) = some ((s.take hi).drop lo) := by
  unfold goSlice
  have h : (0 : Int) ≤ (lo : Int) ∧ (lo : Int) ≤ (hi : Int) ∧ (hi : Int) ≤ (s.length : Int) :=
    ⟨by omega, by omega, by omega⟩
  rw [if_pos h, Int.toNat_ofNat, Int.toNat_ofNat]

/-- Every slice of at least four bytes splits into three leading bytes, a
middle part and one trailing byte. -/
theorem frame_split (f : List Nat) (h : 4 ≤ f.length) :
    ∃ a t l c k, f = a :: t :: l :: (c ++ [k]) := by
  match f, h with
  | a :: t :: l :: x :: rest, _ =>
    have hne : x :: rest ≠ [] := by simp
    refine ⟨a, t, l, (x :: rest).dropLast, (x :: rest).getLast hne, ?_⟩
    rw [List.dropLast_append_getLast hne]

/-- What `parseDeviceFrame` does on a slice shorter than four bytes. -/
theorem parseDeviceFrame_short (f : List Nat) (h : f.length < 4) :
    parseDeviceFrame f = some ⟨0, [], false⟩ := by
  unfold parseDeviceFrame minFrameLen
  have h1 : (f.length : Int) < 4 := by omega
  rw [if_pos h1]

/-- What `parseDeviceFrame` does on a slice of at least four bytes, check by
check. -/
theorem parseDeviceFrame_long (a t l k : Nat) (c : List Nat) :
    parseDeviceFrame (a :: t :: l :: (c ++ [k])) = some
      (if a ≠ HeaderByte then ⟨0, [], false⟩
       else if t ∉ validTypes then ⟨t, [], false⟩
       else if l ≠ c.length then ⟨t, [], false⟩
       else if crc8 (a :: t :: l :: c) ≠ k then ⟨t, [], false⟩
       else ⟨t, c, true⟩) := by
  have hlen : ((a :: t :: l :: (c ++ [k])).length : Int) = (c.length : Int) + 4 := by
    simp only [List.length_cons, List.length_append, List.length_nil]
    omega
  have i0 : goIndex (a :: t :: l :: (c ++ [k])) 0 = some a := by
    simpa using goIndex_natCast (a :: t :: l :: (c ++ [k])) 0
  have i1 : goIndex (a :: t :: l :: (c ++ [k])) 1 = some t := by
    simpa using goIndex_natCast (a :: t :: l :: (c ++ [k])) 1
  have i2 : goIndex (a :: t :: l :: (c ++ [k])) 2 = some l := by
    simpa using goIndex_natCast (a :: t :: l :: (c ++ [k])) 2
  have ik : goIndex (a :: t :: l :: (c ++ [k])) ((c.length : Int) + 4 - 1) = some k := by
    have h := goIndex_natCast (a :: t :: l :: (c ++ [k])) (c.length + 3)
    rw [show (((c.length + 3 : Nat)) : Int) = (c.length : Int) + 4 - 1 by omega] at h
    rw [h]
    simp [List.getElem?_append_right]
  have sb : goSlice (a :: t :: l :: (c ++ [k])) 0 ((c.length : Int) + 4 - 1)
      = some (a :: t :: l :: c) := by
    have h := goSlice_natCast (a :: t :: l :: (c ++ [k])) 0 (c.length + 3) (by omega) (by simp)
    rw [show (((c.length + 3 : Nat)) : Int) = (c.length : Int) + 4 - 1 by omega] at h
    rw [show (0 : Int) = ((0 : Nat) : Int) from rfl, h]
    simp [List.take_append_of_le_length]
  have sc : goSlice (a :: t :: l :: (c ++ [k])) 3 (3 + (c.length : Int)) = some c := by
    have h := goSlice_natCast (a :: t :: l :: (c ++ [k])) 3 (c.length + 3) (by omega) (by simp)
    rw [show (((c.length + 3 : Nat)) : Int) = 3 + (c.length : Int) by omega] at h
    rw [show ((3 : Nat) : Int) = (3 : Int) from rfl] at h
    rw [h]
    simp [List.take_append_of_le_length]
  unfold parseDeviceFrame minFrameLen
  rw [hlen, if_neg (by omega), i0, i1, i2, ik, sb]
  simp only [Option.some_bind]
  by_cases ha : a ≠ HeaderByte
  · rw [if_pos ha, if_pos ha]
  rw [if_neg ha, if_neg ha]
  by_cases ht : t ∉ validTypes
  · rw [if_pos ht, if_pos ht]
  rw [if_neg ht, if_neg ht]
  by_cases hl : l ≠ c.length
  · rw [if_pos hl, if_pos (by omega)]
  rw [if_neg hl, if_neg (by omega)]
  by_cases hc : crc8 (a :: t :: l :: c) ≠ k
  · rw [if_pos hc, if_pos hc]
  rw [if_neg hc, if_neg hc]
  have hl3 : l = c.length := by omega
  subst hl3
  by_cases h0 : ((c.length : Nat) : Int) > 0
  · rw [if_pos h0, sc, Option.some_bind]
  · rw [if_neg h0]
    have : c = [] := List.length_eq_zero.mp (by omega)
    rw [this]

/-- What `isTypeFrame` does on a slice shorter than four bytes. -/
theorem isTypeFrame_short (f : List Nat) (w : Nat) (h : f.length < 4) :
    isTypeFrame f w = some false := by
  unfold isTypeFrame minFrameLen
  have h1 : (f.length : Int) < 4 := by omega
  rw [if_pos h1]

/-- What `isTypeFrame` does on a slice of at least four bytes. -/
theorem isTypeFrame_long (a t l k w : Nat) (c : List Nat) :
    isTypeFrame (a :: t :: l :: (c ++ [k])) w =
      some (decide (a = HeaderByte ∧ t = w ∧ l = c.length ∧ crc8 (a :: t :: l :: c) = k)) := by
  have hlen : ((a :: t :: l :: (c ++ [k])).length : Int) = (c.length : Int) + 4 := by
    simp only [List.length_cons, List.length_append, List.length_nil]
    omega
  have i0 : goIndex (a :: t :: l :: (c ++ [k])) 0 = some a := by
    simpa using goIndex_natCast (a :: t :: l :: (c ++ [k])) 0
  have i1 : goIndex (a :: t :: l :: (c ++ [k])) 1 = some t := by
    simpa using goIndex_natCast (a :: t :: l :: (c ++ [k])) 1
  have i2 : goIndex (a :: t :: l :: (c ++ [k])) 2 = some l := by
    simpa using goIndex_natCast (a :: t :: l :: (c ++ [k])) 2
  have ik : goIndex (a :: t :: l :: (c ++ [k])) ((c.length : Int) + 4 - 1) = some k := by
    have h := goIndex_natCast (a :: t :: l :: (c ++ [k])) (c.length + 3)
    rw [show (((c.length + 3 : Nat)) : Int) = (c.length : Int) + 4 - 1 by omega] at h
    rw [h]
    simp [List.getElem?_append_right]
  have sb : goSlice (a :: t :: l :: (c ++ [k])) 0 ((c.length : Int) + 4 - 1)
      = some (a :: t :: l :: c) := by
    have h := goSlice_natCast (a :: t :: l :: (c ++ [k])) 0 (c.length + 3) (by omega) (by simp)
    rw [show (((c.length + 3 : Nat)) : Int) = (c.length : Int) + 4 - 1 by omega] at h
    rw [show (0 : Int) = ((0 : Nat) : Int) from rfl, h]
    simp [List.take_append_of_le_length]
  unfold isTypeFrame minFrameLen
  rw [hlen, if_neg (by omega), i0, i1, i2, ik, sb]
  simp only [Option.some_bind, Option.map_some']
  by_cases ha : a ≠ HeaderByte
  · rw [if_pos ha]
    simp [ha]
  rw [if_neg ha]
  have ha2 : a = HeaderByte := by simpa using ha
  by_cases ht : t ≠ w
  · simp [ht]
  have ht2 : t = w := by simpa using ht
  by_cases hl : l ≠ c.length
  · have hl2 : ¬ ((l : Int) = (c.length : Int) + 4 - 4) := by omega
    simp [ht2, hl, hl2]
  have hl2 : ((l : Int) = (c.length : Int) + 4 - 4) := by omega
  have hl3 : l = c.length := by omega
  simp [ha2, ht2, hl2, hl3]

theorem fiveChecks_short (f : List Nat) (h : f.length < 4) : ¬ FiveChecks f := by
  unfold FiveChecks
  omega

theorem fiveChecks_long (a t l k : Nat) (c : List Nat) :
    FiveChecks (a :: t :: l :: (c ++ [k])) ↔
      a = HeaderByte ∧ t ∈ validTypes ∧ l = c.length ∧ crc8 (a :: t :: l :: c) = k := by
  have hd : (a :: t :: l :: (c ++ [k])).dropLast = a :: t :: l :: c := by
    rw [show a :: t :: l :: (c ++ [k]) = (a :: t :: l :: c) ++ [k] from rfl,
      List.dropLast_concat]
  have hg : (a :: t :: l :: (c ++ [k])).getLast? = some k := by
    rw [show a :: t :: l :: (c ++ [k]) = (a :: t :: l :: c) ++ [k] from rfl,
      List.getLast?_concat]
  unfold FiveChecks
  rw [hd, hg]
  simp only [List.length_cons, List.length_append, List.length_nil, List.getElem?_cons_zero,
    List.getElem?_cons_succ, Option.some.injEq, validTypes, TypeByteReboot, TypeByteClear,
    TypeByteShutdown, HeaderByte, List.mem_cons, List.mem_singleton, List.not_mem_nil, or_false]
  constructor
  · rintro ⟨_, h0, h1, h2, h3⟩
    exact ⟨h0, h1, by omega, h3.symm⟩
  · rintro ⟨h0, h1, h2, h3⟩
    exact ⟨by omega, h0, h1, by omega, h3.symm⟩

/-- The parser returns on every input, and accepts exactly the slices that
pass the five checks. -/
theorem parseDeviceFrame_spec (f : List Nat) :
    ∃ r, parseDeviceFrame f = some r ∧ (r.ok = true ↔ FiveChecks f) := by
  by_cases h : f.length < 4
  · exact ⟨_, parseDeviceFrame_short f h, by simp [fiveChecks_short f h]⟩
  · obtain ⟨a, t, l, c, k, rfl⟩ := frame_split f (by omega)
    refine ⟨_, parseDeviceFrame_long a t l k c, ?_⟩
    rw [fiveChecks_long]
    by_cases ha : a ≠ HeaderByte
    · simp [ha]
    by_cases ht : t ∉ validTypes
    · simp [ha, ht]
    by_cases hl : l ≠ c.length
    · simp [ha, ht, hl]
    by_cases hc : crc8 (a :: t :: l :: c) ≠ k
    · simp [ha, ht, hl, hc]
    · simp only [ha, ht, hl, hc, if_false]
      simp only [ne_eq, not_not] at ha ht hl hc
      simp only [true_iff]
      exact ⟨ha, ht, hl, hc⟩

/-! ## The checksum register -/

theorem crc8Bit_lt (x : Nat) : crc8Bit x < 256 := by
  unfold crc8Bit
  split <;> exact Nat.lt_succ_of_le Nat.and_le_right

set_option maxRecDepth 100000 in
/-- On a byte, the loop body doubles the register and, when bit 7 was set,
cancels the carried-out bit and adds the polynomial: it adds `0x107`. -/
theorem crc8Bit_eq : ∀ x, x < 256 →
    crc8Bit x = if x < 128 then 2 * x else (2 * x) ^^^ 0x107 := by
  decide

set_option maxRecDepth 100000 in
/-- The loop body can be undone on bytes: the low bit of its result tells
whether the polynomial was added. -/
theorem crc8Bit_undo : ∀ x, x < 256 →
    (if crc8Bit x % 2 = 1 then (crc8Bit x ^^^ 0x107) / 2 else crc8Bit x / 2) = x := by
  decide

theorem crc8Bit_inj (x y : Nat) (hx : x < 256) (hy : y < 256)
    (h : crc8Bit x = crc8Bit y) : x = y := by
  have h1 := crc8Bit_undo x hx
  have h2 := crc8Bit_undo y hy
  rw [h] at h1
  exact h1.symm.trans h2

theorem crc8Byte_eq (s b : Nat) :
    crc8Byte s b = crc8Bit (crc8Bit (crc8Bit (crc8Bit (crc8Bit (crc8Bit (crc8Bit (crc8Bit
      (s ^^^ b)))))))) := rfl

theorem crc8Byte_lt (s b : Nat) : crc8Byte s b < 256 := by
  rw [crc8Byte_eq]
  exact crc8Bit_lt _

theorem crc8Byte_inj (u v : Nat) (hu : u < 256) (hv : v < 256)
    (h : crc8Bit (crc8Bit (crc8Bit (crc8Bit (crc8Bit (crc8Bit (crc8Bit (crc8Bit u)))))))
       = crc8Bit (crc8Bit (crc8Bit (crc8Bit (crc8Bit (crc8Bit (crc8Bit (crc8Bit v)))))))) :
    u = v := by
  apply crc8Bit_inj _ _ hu hv
  iterate 7 apply crc8Bit_inj _ _ (crc8Bit_lt _) (crc8Bit_lt _)
  exact h

theorem crc8Byte_ne_of_byte_ne (s b b' : Nat) (hs : s < 256) (hb : b < 256) (hb' : b' < 256)
    (hne : b ≠ b') : crc8Byte s b ≠ crc8Byte s b' := by
  intro h
  rw [crc8Byte_eq, crc8Byte_eq] at h
  have := crc8Byte_inj _ _ (@Nat.xor_lt_two_pow s b 8 hs hb)
    (@Nat.xor_lt_two_pow s b' 8 hs hb') h
  exact hne (Nat.xor_right_injective this)

theorem crc8Byte_ne_of_state_ne (s s' b : Nat) (hs : s < 256) (hs' : s' < 256) (hb : b < 256)
    (hne : s ≠ s') : crc8Byte s b ≠ crc8Byte s' b := by
  intro h
  rw [crc8Byte_eq, crc8Byte_eq] at h
  have := crc8Byte_inj _ _ (@Nat.xor_lt_two_pow s b 8 hs hb)
    (@Nat.xor_lt_two_pow s' b 8 hs' hb) h
  exact hne (Nat.xor_left_injective this)

/-- Two different register values stay different while the same bytes are
absorbed. -/
theorem foldl_crc8Byte_ne (d : List Nat) (hd : IsBytes d) :
    ∀ s s', s < 256 → s' < 256 → s ≠ s' →
      d.foldl crc8Byte s ≠ d.foldl crc8Byte s' := by
  induction d with
  | nil => intro s s' _ _ hne; simpa using hne
  | cons b d ih =>
    intro s s' hs hs' hne
    have hb : b < 256 := hd b (List.mem_cons_self _ _)
    have hd' : IsBytes d := fun x hx => hd x (List.mem_cons_of_mem _ hx)
    simp only [List.foldl_cons]
    exact ih hd' _ _ (crc8Byte_lt _ _) (crc8Byte_lt _ _)
      (crc8Byte_ne_of_state_ne s s' b hs hs' hb hne)

/-- Replacing one byte by a different byte changes the final register. -/
theorem foldl_crc8Byte_set_ne (d : List Nat) (hd : IsBytes d) :
    ∀ (i v b s : Nat), d[i]? = some b → v < 256 → v ≠ b → s < 256 →
      (d.set i v).foldl crc8Byte s ≠ d.foldl crc8Byte s := by
  induction d with
  | nil => intro i v b s hi; simp at hi
  | cons x d ih =>
    intro i v b s hi hv hne hs
    have hx : x < 256 := hd x (List.mem_cons_self _ _)
    have hd' : IsBytes d := fun y hy => hd y (List.mem_cons_of_mem _ hy)
    cases i with
    | zero =>
      simp only [List.getElem?_cons_zero, Option.some.injEq] at hi
      subst hi
      simp only [List.set_cons_zero, List.foldl_cons]
      exact foldl_crc8Byte_ne d hd' _ _ (crc8Byte_lt _ _) (crc8Byte_lt _ _)
        (crc8Byte_ne_of_byte_ne s v x hs hv hx hne)
    | succ j =>
      simp only [List.getElem?_cons_succ] at hi
      simp only [List.set_cons_succ, List.foldl_cons]
      exact ih hd' j v b _ hi hv hne (crc8Byte_lt _ _)

/-- Inverting one of the low eight bits of a byte gives a different byte. -/
theorem xor_bit_ne (b k : Nat) : b ^^^ (1 <<< k) ≠ b := by
  intro h
  have h1 : b ^^^ (1 <<< k) = b ^^^ 0 := by rw [h, Nat.xor_zero]
  have h2 := Nat.xor_right_injective h1
  have h3 : 0 < 1 <<< k := by rw [Nat.one_shiftLeft]; exact Nat.two_pow_pos k
  omega

theorem xor_bit_lt (b k : Nat) (hb : b < 256) (hk : k < 8) : b ^^^ (1 <<< k) < 256 := by
  refine @Nat.xor_lt_two_pow b (1 <<< k) 8 hb ?_
  rw [Nat.one_shiftLeft]
  exact Nat.pow_lt_pow_right (by decide) hk

/-! ## The checksum as polynomial division over GF(2) -/

open Polynomial

set_option maxRecDepth 100000 in
/-- Read in base two, the bits of a byte give the byte back: `bitsOfByte` lists
the most significant bit first and `evalBits` takes the first bit as the leading
coefficient. -/
theorem evalBits_two_bitsOfByte : ∀ b, b < 256 → evalBits (2 : Nat) (bitsOfByte b) = b := by
  decide

theorem foldl_horner {R : Type} [CommSemiring R] (x : R) (v : List Bool) :
    ∀ acc : R, v.foldl (fun acc b => acc * x + (if b then 1 else 0)) acc
      = acc * x ^ v.length + evalBits x v := by
  induction v with
  | nil => intro acc; simp [evalBits]
  | cons b v ih =>
    intro acc
    unfold evalBits
    simp only [List.foldl_cons, List.length_cons]
    rw [ih, ih (0 * x + _)]
    ring

theorem evalBits_append {R : Type} [CommSemiring R] (x : R) (u v : List Bool) :
    evalBits x (u ++ v) = evalBits x u * x ^ v.length + evalBits x v := by
  unfold evalBits
  rw [List.foldl_append, foldl_horner]
  rfl

theorem messageBits_append (d : List Nat) (b : Nat) :
    messageBits (d ++ [b]) = messageBits d ++ bitsOfByte b := by
  induction d with
  | nil => simp [messageBits]
  | cons a d ih => simp [messageBits, ih]

theorem evalBits_bitsOfByte {R : Type} [CommSemiring R] (x : R) (n : Nat) :
    evalBits x (bitsOfByte n) = bitSum x 8 n := by
  simp only [evalBits, bitsOfByte, bitSum, List.foldl_cons, List.foldl_nil, Finset.sum_range_succ,
    Finset.sum_range_zero]
  ring

theorem bitSum_xor (k a b : Nat) :
    bitSum (X : (ZMod 2)[X]) k (a ^^^ b) = bitSum X k a + bitSum X k b := by
  unfold bitSum
  rw [← Finset.sum_add_distrib]
  apply Finset.sum_congr rfl
  intro i _
  rw [Nat.testBit_xor]
  cases a.testBit i <;> cases b.testBit i <;> simp
  exact (CharTwo.add_self_eq_zero _).symm

theorem bitSum_double (k n : Nat) :
    bitSum (X : (ZMod 2)[X]) (k + 1) (2 * n) = X * bitSum X k n := by
  unfold bitSum
  rw [Finset.sum_range_succ', Finset.mul_sum]
  have h0 : (2 * n).testBit 0 = false := by simp [Nat.testBit_zero]
  rw [h0]
  simp only [Bool.false_eq_true, if_false, zero_mul, add_zero]
  apply Finset.sum_congr rfl
  intro i _
  have h1 : (2 * n).testBit (i + 1) = n.testBit i := by
    rw [Nat.testBit_succ]
    simp
  rw [h1]
  ring

theorem bitSum_succ_of_lt (k n : Nat) (h : n < 2 ^ k) :
    bitSum (X : (ZMod 2)[X]) (k + 1) n = bitSum X k n := by
  unfold bitSum
  rw [Finset.sum_range_succ, Nat.testBit_lt_two_pow h]
  simp

theorem bitSum_poly : bitSum (X : (ZMod 2)[X]) 9 0x107 = X ^ 8 + X ^ 2 + X + 1 := by
  simp only [bitSum, Finset.sum_range_succ, Finset.sum_range_zero]
  rw [show Nat.testBit 0x107 0 = true by decide, show Nat.testBit 0x107 1 = true by decide,
    show Nat.testBit 0x107 2 = true by decide, show Nat.testBit 0x107 3 = false by decide,
    show Nat.testBit 0x107 4 = false by decide, show Nat.testBit 0x107 5 = false by decide,
    show Nat.testBit 0x107 6 = false by decide, show Nat.testBit 0x107 7 = false by decide,
    show Nat.testBit 0x107 8 = true by decide]
  simp only [Bool.false_eq_true, if_false, if_true]
  ring

theorem degree_bitSum_lt (k n : Nat) : (bitSum (X : (ZMod 2)[X]) k n).degree < k := by
  unfold bitSum
  refine (degree_sum_le _ _).trans_lt ?_
  refine (Finset.sup_lt_iff (WithBot.bot_lt_coe k)).2 fun i hi => ?_
  have hi' : i < k := Finset.mem_range.mp hi
  split
  · rw [one_mul]
    exact (degree_X_pow_le i).trans_lt (WithBot.coe_lt_coe.2 hi')
  · rw [zero_mul, degree_zero]
    exact WithBot.bot_lt_coe k

theorem crcPoly_tail_degree : (X ^ 2 + (X + 1) : (ZMod 2)[X]).degree < ((8 : Nat) : WithBot Nat) := by
  have h : (X ^ 2 + (X + 1) : (ZMod 2)[X]).degree ≤ 2 := by compute_degree
  exact h.trans_lt (by exact_mod_cast (by decide : (2 : Nat) < 8))

theorem crcPoly_monic : (X ^ 8 + X ^ 2 + X + 1 : (ZMod 2)[X]).Monic := by
  rw [add_assoc, add_assoc]
  exact monic_X_pow_add crcPoly_tail_degree

theorem crcPoly_degree : (X ^ 8 + X ^ 2 + X + 1 : (ZMod 2)[X]).degree = ((8 : Nat) : WithBot Nat) := by
  have h : (X ^ 2 + (X + 1) : (ZMod 2)[X]).degree < (X ^ 8 : (ZMod 2)[X]).degree := by
    rw [degree_X_pow]
    exact crcPoly_tail_degree
  rw [add_assoc, add_assoc, degree_add_eq_left_of_degree_lt h, degree_X_pow]

/-- One pass of the inner loop multiplies the register by `X` modulo the
generator. -/
theorem bitSum_crc8Bit (x : Nat) (hx : x < 256) :
    ∃ q : (ZMod 2)[X], bitSum X 8 (crc8Bit x)
      = X * bitSum X 8 x + q * (X ^ 8 + X ^ 2 + X + 1) := by
  have hlt : crc8Bit x < 2 ^ 8 := crc8Bit_lt x
  rw [← bitSum_succ_of_lt 8 _ hlt, crc8Bit_eq x hx]
  by_cases h : x < 128
  · rw [if_pos h, bitSum_double]
    exact ⟨0, by ring⟩
  · rw [if_neg h, bitSum_xor, bitSum_double, bitSum_poly]
    exact ⟨1, by ring⟩

theorem bitSum_iterate (n : Nat) : ∀ x, x < 256 →
    crc8Bit^[n] x < 256 ∧
    ∃ q : (ZMod 2)[X], bitSum X 8 (crc8Bit^[n] x)
      = X ^ n * bitSum X 8 x + q * (X ^ 8 + X ^ 2 + X + 1) := by
  induction n with
  | zero => intro x hx; exact ⟨hx, 0, by simp⟩
  | succ n ih =>
    intro x hx
    obtain ⟨hlt, q, hq⟩ := ih x hx
    rw [Function.iterate_succ_apply']
    obtain ⟨q', hq'⟩ := bitSum_crc8Bit _ hlt
    refine ⟨crc8Bit_lt _, q' + X * q, ?_⟩
    rw [hq', hq]
    ring

theorem bitSum_crc8Byte (s b : Nat) (hs : s < 256) (hb : b < 256) :
    ∃ q : (ZMod 2)[X], bitSum X 8 (crc8Byte s b)
      = X ^ 8 * (bitSum X 8 s + bitSum X 8 b) + q * (X ^ 8 + X ^ 2 + X + 1) := by
  have h : crc8Byte s b = crc8Bit^[8] (s ^^^ b) := rfl
  rw [h, ← bitSum_xor]
  exact (bitSum_iterate 8 _ (@Nat.xor_lt_two_pow s b 8 hs hb)).2

theorem crc8_lt (d : List Nat) : crc8 d < 256 := by
  rcases List.eq_nil_or_concat d with h | ⟨d', b, h⟩
  · subst h; decide
  · rw [List.concat_eq_append] at h
    subst h
    unfold crc8
    rw [List.foldl_append, List.foldl_cons, List.foldl_nil]
    exact crc8Byte_lt _ _

theorem crc8_congruence (d : List Nat) (hd : IsBytes d) :
    ∃ q : (ZMod 2)[X], evalBits X (messageBits d) * X ^ 8
      = q * (X ^ 8 + X ^ 2 + X + 1) + bitSum X 8 (crc8 d) := by
  induction d using List.reverseRecOn with
  | nil => exact ⟨0, by simp [messageBits, evalBits, crc8, bitSum]⟩
  | append_singleton d b ih =>
    have hb : b < 256 := hd b (by simp)
    have hd' : IsBytes d := fun x hx => hd x (List.mem_append_left _ hx)
    obtain ⟨q, hq⟩ := ih hd'
    have hc : crc8 (d ++ [b]) = crc8Byte (crc8 d) b := by
      unfold crc8
      rw [List.foldl_append, List.foldl_cons, List.foldl_nil]
    obtain ⟨q', hq'⟩ := bitSum_crc8Byte (crc8 d) b (crc8_lt d) hb
    refine ⟨q * X ^ 8 - q', ?_⟩
    rw [messageBits_append, evalBits_append, evalBits_bitsOfByte, hc, hq']
    have hlen : (bitsOfByte b).length = 8 := rfl
    rw [hlen, add_mul, hq]
    ring

/-! ## Hex decoding -/

theorem fromHexChar_isSome (c : Nat) : (fromHexChar c).isSome = true ↔ IsHexDigit c := by
  unfold fromHexChar IsHexDigit
  split_ifs <;> simp <;> omega

theorem hexDecodeString_isSome (s : List Nat) :
    (hexDecodeString s).isSome = true ↔ s.length % 2 = 0 ∧ ∀ c ∈ s, IsHexDigit c := by
  induction s using hexDecodeString.induct with
  | case1 => simp [hexDecodeString]
  | case2 c => simp [hexDecodeString]
  | case3 p q rest ih =>
    rw [hexDecodeString]
    have hp := fromHexChar_isSome p
    have hq := fromHexChar_isSome q
    cases h1 : fromHexChar p with
    | none =>
      rw [h1] at hp
      simp only [Option.none_bind, Option.isSome_none, Bool.false_eq_true, false_iff] at hp ⊢
      intro h
      exact hp (h.2 p (by simp))
    | some a =>
      rw [h1] at hp
      cases h2 : fromHexChar q with
      | none =>
        rw [h2] at hq
        simp only [Option.some_bind, Option.none_bind, Option.isSome_none, Bool.false_eq_true,
          false_iff] at hq ⊢
        intro h
        exact hq (h.2 q (by simp))
      | some b =>
        rw [h2] at hq
        cases h3 : hexDecodeString rest with
        | none =>
          rw [h3] at ih
          simp only [Option.some_bind, Option.none_bind, Option.isSome_none, Bool.false_eq_true,
            false_iff] at ih ⊢
          intro h
          apply ih
          refine ⟨?_, fun c hc => h.2 c (by simp [hc])⟩
          have := h.1
          simp only [List.length_cons] at this
          omega
        | some ds =>
          rw [h3] at ih
          simp only [Option.some_bind, Option.isSome_some, true_iff] at ih hp hq ⊢
          refine ⟨?_, ?_⟩
          · simp only [List.length_cons]
            omega
          · intro c hc
            simp only [List.mem_cons] at hc
            rcases hc with rfl | rfl | hc
            · exact hp
            · exact hq
            · exact ih.2 c hc

/-! ## Accepted frames and total entry points -/

/-- An accepted slice is rebuilt from the type and content returned for it. -/
theorem accepted_frame_form (f : List Nat) (r : ParseResult)
    (h : parseDeviceFrame f = some r) (hok : r.ok = true) :
    r.typ ∈ validTypes ∧
    f = 0xA8 :: r.typ :: r.content.length ::
      (r.content ++ [crc8 (0xA8 :: r.typ :: r.content.length :: r.content)]) := by
  by_cases h4 : f.length < 4
  · rw [parseDeviceFrame_short f h4] at h
    cases h
    cases hok
  obtain ⟨a, t, l, c, k, rfl⟩ := frame_split f (by omega)
  rw [parseDeviceFrame_long] at h
  by_cases ha : a ≠ HeaderByte
  · rw [if_pos ha] at h; cases h; cases hok
  rw [if_neg ha] at h
  by_cases ht : t ∉ validTypes
  · rw [if_pos ht] at h; cases h; cases hok
  rw [if_neg ht] at h
  by_cases hl : l ≠ c.length
  · rw [if_pos hl] at h; cases h; cases hok
  rw [if_neg hl] at h
  by_cases hc : crc8 (a :: t :: l :: c) ≠ k
  · rw [if_pos hc] at h; cases h; cases hok
  rw [if_neg hc] at h
  cases h
  simp only [ne_eq, not_not, HeaderByte] at ha ht hl hc
  subst ha hl hc
  exact ⟨ht, rfl⟩

theorem isDeviceQR_total (f : List Nat) : ∃ b, IsDeviceQR f = some b := by
  obtain ⟨r, hr, _⟩ := parseDeviceFrame_spec f
  exact ⟨r.ok, by simp [IsDeviceQR, hr]⟩

theorem isTypeFrame_total (w : Nat) (f : List Nat) : ∃ b, isTypeFrame f w = some b := by
  by_cases h4 : f.length < 4
  · exact ⟨_, isTypeFrame_short f w h4⟩
  · obtain ⟨a, t, l, c, k, rfl⟩ := frame_split f (by omega)
    exact ⟨_, isTypeFrame_long a t l k w c⟩

/-- The shape shared by the four string entry points: `false` when decoding
fails, the byte-level verdict on the decoded bytes otherwise. -/
theorem hex_entry_point (W C : List Nat → Option Bool) (s : List Nat)
    (hnone : hexDecodeString s = none → W s = some false)
    (hsome : ∀ b, hexDecodeString s = some b → W s = C b)
    (htotal : ∀ b, ∃ r, C b = some r) :
    ∃ r, W s = some r ∧
      (r = true ↔ s.length % 2 = 0 ∧ (∀ c ∈ s, IsHexDigit c) ∧
        ∃ b, hexDecodeString s = some b ∧ C b = some true) := by
  have hdec := hexDecodeString_isSome s
  cases h : hexDecodeString s with
  | none =>
    refine ⟨false, hnone h, ?_⟩
    simp
  | some b =>
    rw [h] at hdec
    obtain ⟨r, hr⟩ := htotal b
    refine ⟨r, (hsome b h).trans hr, ?_⟩
    have hd := hdec.mp rfl
    constructor
    · intro hrt
      subst hrt
      exact ⟨hd.1, hd.2, b, rfl, hr⟩
    · rintro ⟨_, _, b', hb', hc⟩
      cases hb'
      rw [hr] at hc
      exact Option.some.inj hc

/-! ## Claims -/

/-- C1: for every byte sequence `f`, `parseDeviceFrame f` returns, and its `ok`
is `true` exactly when the five checks hold (`len(f) >= 4`, `f[0] = 0xA8`,
`f[1]` is `0x01`, `0x02` or `0x03`, `f[2] = len(f) - 4`, and `crc8` of `f`
without its last byte is the last byte); `IsDeviceQR f` returns the same
verdict. -/
theorem parseDeviceFrame_ok_iff_fiveChecks (f : List Nat) :
    (∃ r, parseDeviceFrame f = some r ∧ (r.ok = true ↔ FiveChecks f)) ∧
    (∃ b, IsDeviceQR f = some b ∧ (b = true ↔ FiveChecks f)) := by
  refine ⟨parseDeviceFrame_spec f, ?_⟩
  obtain ⟨r, hr, hiff⟩ := parseDeviceFrame_spec f
  exact ⟨r.ok, by simp [IsDeviceQR, hr], hiff⟩

/-- C2: when `parseDeviceFrame f` returns `ok = true`, the returned type is
`f[1]` and the returned content is `f[3 : 3+f[2]]`: exactly `f[2]` bytes, which
are `f` without its first three bytes and its last byte, and no bytes at all
when `f[2] = 0`. -/
theorem parseDeviceFrame_ok_fields (f : List Nat) (r : ParseResult)
    (h : parseDeviceFrame f = some r) (hok : r.ok = true) :
    f[1]? = some r.typ ∧
    (∃ n, f[2]? = some n ∧ r.content = (f.take (3 + n)).drop 3 ∧ r.content.length = n ∧
      (n = 0 → r.content = [])) ∧
    r.content = (f.drop 3).dropLast := by
  by_cases h4 : f.length < 4
  · rw [parseDeviceFrame_short f h4] at h
    cases h
    cases hok
  obtain ⟨a, t, l, c, k, rfl⟩ := frame_split f (by omega)
  rw [parseDeviceFrame_long] at h
  by_cases ha : a ≠ HeaderByte
  · rw [if_pos ha] at h; cases h; cases hok
  rw [if_neg ha] at h
  by_cases ht : t ∉ validTypes
  · rw [if_pos ht] at h; cases h; cases hok
  rw [if_neg ht] at h
  by_cases hl : l ≠ c.length
  · rw [if_pos hl] at h; cases h; cases hok
  rw [if_neg hl] at h
  by_cases hc : crc8 (a :: t :: l :: c) ≠ k
  · rw [if_pos hc] at h; cases h; cases hok
  rw [if_neg hc] at h
  cases h
  have hl2 : l = c.length := by omega
  subst hl2
  refine ⟨rfl, ⟨c.length, by simp, ?_, rfl, ?_⟩, ?_⟩
  · rw [show 3 + c.length = c.length + 3 by omega]
    simp [List.take_append_of_le_length]
  · intro h0
    exact List.length_eq_zero.mp h0
  · simp [List.dropLast_concat]

set_option maxRecDepth 8000 in
theorem parseDeviceFrame_ok_fields_witness :
    [0xA8, 1, 2, 7, 9, 126][1]? = some 1 ∧
    (∃ n, [0xA8, 1, 2, 7, 9, 126][2]? = some n ∧
      [7, 9] = (([0xA8, 1, 2, 7, 9, 126] : List Nat).take (3 + n)).drop 3 ∧
      ([7, 9] : List Nat).length = n ∧ (n = 0 → ([7, 9] : List Nat) = [])) ∧
    [7, 9] = (([0xA8, 1, 2, 7, 9, 126] : List Nat).drop 3).dropLast :=
  parseDeviceFrame_ok_fields [0xA8, 1, 2, 7, 9, 126] ⟨1, [7, 9], true⟩ (by decide) rfl

/-- C3: round trip.  For a type `t` in `0x01`, `0x02`, `0x03` and a content `c`
of length 0 to 251, the frame `[0xA8, t, len(c)] ++ c ++ [crc8(...)]` is accepted
by `parseDeviceFrame`, which returns `t` and `c`. -/
theorem parseDeviceFrame_roundtrip (t : Nat) (c : List Nat)
    (ht : t = 0x01 ∨ t = 0x02 ∨ t = 0x03) (_hc : c.length ≤ 251) :
    parseDeviceFrame ([0xA8, t, c.length] ++ c ++ [crc8 ([0xA8, t, c.length] ++ c)])
      = some ⟨t, c, true⟩ := by
  have h := parseDeviceFrame_long 0xA8 t c.length (crc8 (0xA8 :: t :: c.length :: c)) c
  have hv : t ∈ validTypes := by
    simp only [validTypes, TypeByteReboot, TypeByteClear, TypeByteShutdown, List.mem_cons,
      List.mem_singleton, List.not_mem_nil, or_false]
    exact ht
  simp only [HeaderByte, ne_eq, not_true_eq_false, if_false, hv] at h
  simpa using h

theorem parseDeviceFrame_roundtrip_witness :
    parseDeviceFrame ([0xA8, 0x03, [0x41, 0x42].length] ++ [0x41, 0x42] ++
      [crc8 ([0xA8, 0x03, [0x41, 0x42].length] ++ [0x41, 0x42])])
      = some ⟨0x03, [0x41, 0x42], true⟩ :=
  parseDeviceFrame_roundtrip 0x03 [0x41, 0x42] (by decide) (by decide)

/-- C4: for a type `T` in `0x01`, `0x02`, `0x03`, `isTypeFrame f T` returns, and
returns `true` exactly when `parseDeviceFrame f` returns `ok = true` with type
`T`; so `IsRebootQR`, `IsClearQR` and `IsShutdownQR` agree with
`parseDeviceFrame` filtered by their type. -/
theorem isTypeFrame_iff_parseDeviceFrame (f : List Nat) (T : Nat)
    (hT : T = 0x01 ∨ T = 0x02 ∨ T = 0x03) :
    (∃ b, isTypeFrame f T = some b ∧
      (b = true ↔ ∃ c, parseDeviceFrame f = some ⟨T, c, true⟩)) ∧
    (∃ b, IsRebootQR f = some b ∧
      (b = true ↔ ∃ c, parseDeviceFrame f = some ⟨0x01, c, true⟩)) ∧
    (∃ b, IsClearQR f = some b ∧
      (b = true ↔ ∃ c, parseDeviceFrame f = some ⟨0x02, c, true⟩)) ∧
    (∃ b, IsShutdownQR f = some b ∧
      (b = true ↔ ∃ c, parseDeviceFrame f = some ⟨0x03, c, true⟩)) := by
  have key : ∀ w, w ∈ validTypes →
      ∃ b, isTypeFrame f w = some b ∧
        (b = true ↔ ∃ c, parseDeviceFrame f = some ⟨w, c, true⟩) := by
    intro w hw
    by_cases h4 : f.length < 4
    · refine ⟨false, isTypeFrame_short f w h4, ?_⟩
      rw [parseDeviceFrame_short f h4]
      simp
    obtain ⟨a, t, l, c, k, rfl⟩ := frame_split f (by omega)
    refine ⟨_, isTypeFrame_long a t l k w c, ?_⟩
    rw [parseDeviceFrame_long, decide_eq_true_iff]
    constructor
    · rintro ⟨h0, h1, h2, h3⟩
      subst h1
      refine ⟨c, ?_⟩
      rw [if_neg (by simp [h0]), if_neg (by simp [hw]), if_neg (by simp [h2]),
        if_neg (by simp [h3])]
    · rintro ⟨c', h⟩
      by_cases ha : a ≠ HeaderByte
      · rw [if_pos ha] at h; cases h
      rw [if_neg ha] at h
      by_cases ht : t ∉ validTypes
      · rw [if_pos ht] at h; cases h
      rw [if_neg ht] at h
      by_cases hl : l ≠ c.length
      · rw [if_pos hl] at h; cases h
      rw [if_neg hl] at h
      by_cases hc : crc8 (a :: t :: l :: c) ≠ k
      · rw [if_pos hc] at h; cases h
      rw [if_neg hc] at h
      cases h
      simp only [ne_eq, not_not] at ha hl hc
      exact ⟨ha, rfl, hl, hc⟩
  have hT2 : T ∈ validTypes := by
    simp only [validTypes, TypeByteReboot, TypeByteClear, TypeByteShutdown, List.mem_cons,
      List.mem_singleton, List.not_mem_nil, or_false]
    exact hT
  exact ⟨key T hT2, key 0x01 (by decide), key 0x02 (by decide), key 0x03 (by decide)⟩

theorem isTypeFrame_iff_parseDeviceFrame_witness :
    ((0x02 : Nat) = 0x01 ∨ (0x02 : Nat) = 0x02 ∨ (0x02 : Nat) = 0x03) ∧
    (∃ b, isTypeFrame [0xA8, 0x02, 0x00, 0x33] 0x02 = some b ∧
      (b = true ↔ ∃ c, parseDeviceFrame [0xA8, 0x02, 0x00, 0x33] = some ⟨0x02, c, true⟩)) ∧
    (∃ b, IsRebootQR [0xA8, 0x02, 0x00, 0x33] = some b ∧
      (b = true ↔ ∃ c, parseDeviceFrame [0xA8, 0x02, 0x00, 0x33] = some ⟨0x01, c, true⟩)) ∧
    (∃ b, IsClearQR [0xA8, 0x02, 0x00, 0x33] = some b ∧
      (b = true ↔ ∃ c, parseDeviceFrame [0xA8, 0x02, 0x00, 0x33] = some ⟨0x02, c, true⟩)) ∧
    (∃ b, IsShutdownQR [0xA8, 0x02, 0x00, 0x33] = some b ∧
      (b = true ↔ ∃ c, parseDeviceFrame [0xA8, 0x02, 0x00, 0x33] = some ⟨0x03, c, true⟩)) :=
  ⟨by decide, isTypeFrame_iff_parseDeviceFrame [0xA8, 0x02, 0x00, 0x33] 0x02 (by decide)⟩

/-- C5: single-bit error detection.  If `parseDeviceFrame` accepts the byte
sequence `f`, then inverting any one bit `k` (0 to 7) of any byte `i` before the
checksum byte, everything else unchanged, gives a sequence that it rejects. -/
theorem single_bit_flip_rejected (f : List Nat) (hf : IsBytes f) (r : ParseResult)
    (h : parseDeviceFrame f = some r) (hok : r.ok = true)
    (i k : Nat) (hi : i < f.length - 1) (hk : k < 8) :
    ∃ r', parseDeviceFrame (flipBit f i k) = some r' ∧ r'.ok = false := by
  obtain ⟨r0, hr0, hiff⟩ := parseDeviceFrame_spec f
  have hr : r0 = r := Option.some.inj (hr0.symm.trans h)
  subst hr
  have hchk : FiveChecks f := hiff.mp hok
  obtain ⟨r', hr', hiff'⟩ := parseDeviceFrame_spec (flipBit f i k)
  refine ⟨r', hr', ?_⟩
  rcases List.eq_nil_or_concat f with hnil | ⟨d, c, hdc⟩
  · subst hnil
    simp at hi
  rw [List.concat_eq_append] at hdc
  subst hdc
  have hid : i < d.length := by simpa using hi
  have hd : IsBytes d := fun x hx => hf x (List.mem_append_left _ hx)
  have hb : d[i]? = some d[i] := List.getElem?_eq_getElem hid
  have hb256 : d[i] < 256 := hd _ (List.getElem_mem hid)
  generalize d[i] = b at hb hb256
  have hflip : flipBit (d ++ [c]) i k = d.set i (b ^^^ (1 <<< k)) ++ [c] := by
    unfold flipBit
    rw [List.getElem?_append_left hid, hb]
    exact List.set_append_left i _ hid
  have hcrc : crc8 d = c := by
    have := hchk.2.2.2.2
    rw [List.getLast?_concat, List.dropLast_concat] at this
    exact (Option.some.inj this).symm
  cases hokr : r'.ok with
  | false => rfl
  | true =>
    exfalso
    have hchk' : FiveChecks (flipBit (d ++ [c]) i k) := hiff'.mp hokr
    have := hchk'.2.2.2.2
    rw [hflip, List.getLast?_concat, List.dropLast_concat] at this
    have hcrc' : crc8 (d.set i (b ^^^ (1 <<< k))) = crc8 d :=
      (Option.some.inj this).symm.trans hcrc.symm
    exact foldl_crc8Byte_set_ne d hd i _ b 0 hb (xor_bit_lt b k hb256 hk) (xor_bit_ne b k)
      (by decide) hcrc'

set_option maxRecDepth 8000 in
theorem single_bit_flip_rejected_witness :
    ∃ r', parseDeviceFrame (flipBit [0xA8, 0x01, 0x02, 0x07, 0x09, 0x7E] 1 1) = some r' ∧
      r'.ok = false :=
  single_bit_flip_rejected [0xA8, 0x01, 0x02, 0x07, 0x09, 0x7E] (by decide)
    ⟨0x01, [0x07, 0x09], true⟩ (by decide) rfl 1 1 (by decide) (by decide)

/-- C6, as stated, fails: on the bytes `A8 05 00 33` the parser returns
`ok = false` together with the type `0x05`, not the zero value. -/
theorem parseDeviceFrame_failure_type_not_zero :
    ∃ r, parseDeviceFrame [0xA8, 0x05, 0x00, 0x33] = some r ∧ r.ok = false ∧
      ¬ (r.typ = 0x00 ∧ r.content = []) :=
  ⟨⟨0x05, [], false⟩, by decide, rfl, by decide⟩

/-- C6, amended: when `parseDeviceFrame f` returns `ok = false`, the returned
content is empty; the returned type is `0x00` if `f` is shorter than four bytes
or `f[0]` is not `0xA8`, and is `f[1]` otherwise (the type, length or checksum
check failed). -/
theorem parseDeviceFrame_failure_fields (f : List Nat) (r : ParseResult)
    (h : parseDeviceFrame f = some r) (hok : r.ok = false) :
    r.content = [] ∧
    (f.length < 4 ∨ f[0]? ≠ some 0xA8 → r.typ = 0x00) ∧
    (4 ≤ f.length ∧ f[0]? = some 0xA8 → f[1]? = some r.typ) := by
  by_cases h4 : f.length < 4
  · rw [parseDeviceFrame_short f h4] at h
    cases h
    exact ⟨rfl, fun _ => rfl, fun h' => by omega⟩
  obtain ⟨a, t, l, c, k, rfl⟩ := frame_split f (by omega)
  rw [parseDeviceFrame_long] at h
  by_cases ha : a ≠ HeaderByte
  · rw [if_pos ha] at h
    cases h
    refine ⟨rfl, fun _ => rfl, fun h' => ?_⟩
    exact absurd (by simpa using h'.2) ha
  rw [if_neg ha] at h
  have ha2 : a = 0xA8 := by simpa [HeaderByte] using ha
  have hr : r.content = [] ∧ r.typ = t := by
    by_cases ht : t ∉ validTypes
    · rw [if_pos ht] at h; cases h; exact ⟨rfl, rfl⟩
    rw [if_neg ht] at h
    by_cases hl : l ≠ c.length
    · rw [if_pos hl] at h; cases h; exact ⟨rfl, rfl⟩
    rw [if_neg hl] at h
    by_cases hc : crc8 (a :: t :: l :: c) ≠ k
    · rw [if_pos hc] at h; cases h; exact ⟨rfl, rfl⟩
    rw [if_neg hc] at h
    cases h
    cases hok
  refine ⟨hr.1, fun h' => ?_, fun _ => by simp [hr.2]⟩
  rcases h' with h' | h'
  · exact absurd h' h4
  · exact absurd (by simp [ha2]) h'

theorem parseDeviceFrame_failure_fields_witness :
    ([] : List Nat) = [] ∧
    (([0xA8, 0x02, 0x00, 0x34] : List Nat).length < 4 ∨
      ([0xA8, 0x02, 0x00, 0x34] : List Nat)[0]? ≠ some 0xA8 → (0x02 : Nat) = 0x00) ∧
    (4 ≤ ([0xA8, 0x02, 0x00, 0x34] : List Nat).length ∧
      ([0xA8, 0x02, 0x00, 0x34] : List Nat)[0]? = some 0xA8 →
      ([0xA8, 0x02, 0x00, 0x34] : List Nat)[1]? = some 0x02) :=
  parseDeviceFrame_failure_fields [0xA8, 0x02, 0x00, 0x34] ⟨0x02, [], false⟩ (by decide) rfl

/-- C7: `crc8` is the non-reflected, most-significant-bit-first CRC-8 with
polynomial `0x07`, initial value 0 and no final XOR.  Reading the bytes `d` as a
polynomial `M` over GF(2), first byte first and most significant bit first, the
byte `crc8 d`, read the same way, is the remainder of `M * X ^ 8` on division
by `X ^ 8 + X ^ 2 + X + 1`. -/
theorem crc8_is_polynomial_remainder (d : List Nat) (hd : IsBytes d) :
    crc8 d < 256 ∧
    (evalBits X (messageBits d) * X ^ 8) %ₘ (X ^ 8 + X ^ 2 + X + 1 : (ZMod 2)[X])
      = evalBits X (bitsOfByte (crc8 d)) := by
  refine ⟨crc8_lt d, ?_⟩
  obtain ⟨q, hq⟩ := crc8_congruence d hd
  rw [evalBits_bitsOfByte]
  refine (div_modByMonic_unique q _ crcPoly_monic ⟨?_, ?_⟩).2
  · rw [hq]; ring
  · rw [crcPoly_degree]
    exact degree_bitSum_lt 8 _

theorem crc8_is_polynomial_remainder_witness :
    crc8 [0xA8, 0x02, 0x00] < 256 ∧
    (evalBits X (messageBits [0xA8, 0x02, 0x00]) * X ^ 8) %ₘ
        (X ^ 8 + X ^ 2 + X + 1 : (ZMod 2)[X])
      = evalBits X (bitsOfByte (crc8 [0xA8, 0x02, 0x00])) :=
  crc8_is_polynomial_remainder [0xA8, 0x02, 0x00] (by decide)

/-- C8: `parseDeviceFrame`, `IsDeviceQR` and `isTypeFrame` never panic.  For
every byte sequence `f`, empty included, and every `wantType`, each index and
slice expression that is evaluated is in bounds, so each call returns. -/
theorem frame_functions_never_panic (f : List Nat) (wantType : Nat) :
    (∃ r, parseDeviceFrame f = some r) ∧
    (∃ b, IsDeviceQR f = some b) ∧
    (∃ b, isTypeFrame f wantType = some b) := by
  have hp : ∃ r, parseDeviceFrame f = some r := by
    by_cases h4 : f.length < 4
    · exact ⟨_, parseDeviceFrame_short f h4⟩
    · obtain ⟨a, t, l, c, k, rfl⟩ := frame_split f (by omega)
      exact ⟨_, parseDeviceFrame_long a t l k c⟩
  refine ⟨hp, ?_, ?_⟩
  · obtain ⟨r, hr⟩ := hp
    exact ⟨r.ok, by simp [IsDeviceQR, hr]⟩
  · by_cases h4 : f.length < 4
    · exact ⟨_, isTypeFrame_short f wantType h4⟩
    · obtain ⟨a, t, l, c, k, rfl⟩ := frame_split f (by omega)
      exact ⟨_, isTypeFrame_long a t l k wantType c⟩

/-- C9: a slice of at least four bytes whose length byte `f[2]` is not
`len(f) - 4` is rejected by `parseDeviceFrame`, `IsDeviceQR`, `IsRebootQR`,
`IsClearQR` and `IsShutdownQR`, whatever its header, type and checksum. -/
theorem length_mismatch_rejected (f : List Nat) (h4 : 4 ≤ f.length)
    (hlen : f[2]? ≠ some (f.length - 4)) :
    (∃ r, parseDeviceFrame f = some r ∧ r.ok = false) ∧
    IsDeviceQR f = some false ∧
    IsRebootQR f = some false ∧ IsClearQR f = some false ∧ IsShutdownQR f = some false := by
  obtain ⟨a, t, l, c, k, rfl⟩ := frame_split f h4
  have hl : l ≠ c.length := by
    intro h
    apply hlen
    simp [h]
  have hp : ∃ r, parseDeviceFrame (a :: t :: l :: (c ++ [k])) = some r ∧ r.ok = false := by
    refine ⟨_, parseDeviceFrame_long a t l k c, ?_⟩
    by_cases ha : a ≠ HeaderByte
    · rw [if_pos ha]
    rw [if_neg ha]
    by_cases ht : t ∉ validTypes
    · rw [if_pos ht]
    rw [if_neg ht, if_pos hl]
  have ht : ∀ w, isTypeFrame (a :: t :: l :: (c ++ [k])) w = some false := by
    intro w
    rw [isTypeFrame_long]
    simp [hl]
  refine ⟨hp, ?_, ht _, ht _, ht _⟩
  obtain ⟨r, hr, hok⟩ := hp
  simp [IsDeviceQR, hr, hok]

theorem length_mismatch_rejected_witness :
    (∃ r, parseDeviceFrame [0xA8, 0x02, 0x01, 0x34] = some r ∧ r.ok = false) ∧
    IsDeviceQR [0xA8, 0x02, 0x01, 0x34] = some false ∧
    IsRebootQR [0xA8, 0x02, 0x01, 0x34] = some false ∧
    IsClearQR [0xA8, 0x02, 0x01, 0x34] = some false ∧
    IsShutdownQR [0xA8, 0x02, 0x01, 0x34] = some false :=
  length_mismatch_rejected [0xA8, 0x02, 0x01, 0x34] (by decide) (by decide)

/-- C10: a slice of at least four bytes whose type byte `f[1]` is none of
`0x01`, `0x02`, `0x03` is rejected by `parseDeviceFrame` and by `IsDeviceQR`,
whatever the other bytes are; the bytes `A8 05 00 33` are such a slice. -/
theorem unknown_type_rejected (f : List Nat) (h4 : 4 ≤ f.length)
    (htyp : f[1]? ≠ some 0x01 ∧ f[1]? ≠ some 0x02 ∧ f[1]? ≠ some 0x03) :
    (∃ r, parseDeviceFrame f = some r ∧ r.ok = false) ∧ IsDeviceQR f = some false := by
  obtain ⟨a, t, l, c, k, rfl⟩ := frame_split f h4
  have ht : t ∉ validTypes := by
    simp only [validTypes, TypeByteReboot, TypeByteClear, TypeByteShutdown, List.mem_cons,
      List.mem_singleton, List.not_mem_nil, or_false]
    simp only [List.getElem?_cons_succ, List.getElem?_cons_zero, ne_eq, Option.some.injEq]
      at htyp
    tauto
  have hp : ∃ r, parseDeviceFrame (a :: t :: l :: (c ++ [k])) = some r ∧ r.ok = false := by
    refine ⟨_, parseDeviceFrame_long a t l k c, ?_⟩
    by_cases ha : a ≠ HeaderByte
    · rw [if_pos ha]
    rw [if_neg ha, if_pos ht]
  refine ⟨hp, ?_⟩
  obtain ⟨r, hr, hok⟩ := hp
  simp [IsDeviceQR, hr, hok]

theorem unknown_type_rejected_witness :
    (∃ r, parseDeviceFrame [0xA8, 0x05, 0x00, 0x33] = some r ∧ r.ok = false) ∧
    IsDeviceQR [0xA8, 0x05, 0x00, 0x33] = some false :=
  unknown_type_rejected [0xA8, 0x05, 0x00, 0x33] (by decide) (by decide)

/-- C11: a non-empty slice whose first byte is not `0xA8` is rejected by
`parseDeviceFrame`, `IsDeviceQR`, `IsRebootQR`, `IsClearQR` and `IsShutdownQR`,
whatever the bytes after it; the bytes `A9 02 00 33` are such a slice. -/
theorem bad_header_rejected (f : List Nat) (hne : f ≠ [])
    (hhdr : f[0]? ≠ some 0xA8) :
    (∃ r, parseDeviceFrame f = some r ∧ r.ok = false) ∧
    IsDeviceQR f = some false ∧
    IsRebootQR f = some false ∧ IsClearQR f = some false ∧ IsShutdownQR f = some false := by
  have hp : ∃ r, parseDeviceFrame f = some r ∧ r.ok = false := by
    by_cases h4 : f.length < 4
    · exact ⟨_, parseDeviceFrame_short f h4, rfl⟩
    · obtain ⟨a, t, l, c, k, rfl⟩ := frame_split f (by omega)
      have ha : a ≠ HeaderByte := by
        intro h
        apply hhdr
        simp [h, HeaderByte]
      exact ⟨_, parseDeviceFrame_long a t l k c, by rw [if_pos ha]⟩
  have ht : ∀ w, isTypeFrame f w = some false := by
    intro w
    by_cases h4 : f.length < 4
    · exact isTypeFrame_short f w h4
    · obtain ⟨a, t, l, c, k, rfl⟩ := frame_split f (by omega)
      have ha : a ≠ HeaderByte := by
        intro h
        apply hhdr
        simp [h, HeaderByte]
      rw [isTypeFrame_long]
      simp [ha]
  refine ⟨hp, ?_, ht _, ht _, ht _⟩
  obtain ⟨r, hr, hok⟩ := hp
  simp [IsDeviceQR, hr, hok]

theorem bad_header_rejected_witness :
    (∃ r, parseDeviceFrame [0xA9, 0x02, 0x00, 0x33] = some r ∧ r.ok = false) ∧
    IsDeviceQR [0xA9, 0x02, 0x00, 0x33] = some false ∧
    IsRebootQR [0xA9, 0x02, 0x00, 0x33] = some false ∧
    IsClearQR [0xA9, 0x02, 0x00, 0x33] = some false ∧
    IsShutdownQR [0xA9, 0x02, 0x00, 0x33] = some false :=
  bad_header_rejected [0xA9, 0x02, 0x00, 0x33] (by decide) (by decide)

/-- C12: a slice of fewer than four bytes, the empty one included, is rejected
by `parseDeviceFrame`, `IsDeviceQR`, `IsRebootQR`, `IsClearQR` and
`IsShutdownQR`; the three bytes `A8 02 00` are such a slice. -/
theorem short_frame_rejected (f : List Nat) (hlen : f.length < 4) :
    (∃ r, parseDeviceFrame f = some r ∧ r.ok = false) ∧
    IsDeviceQR f = some false ∧
    IsRebootQR f = some false ∧ IsClearQR f = some false ∧ IsShutdownQR f = some false := by
  refine ⟨⟨_, parseDeviceFrame_short f hlen, rfl⟩, ?_, isTypeFrame_short f _ hlen,
    isTypeFrame_short f _ hlen, isTypeFrame_short f _ hlen⟩
  simp [IsDeviceQR, parseDeviceFrame_short f hlen]

theorem short_frame_rejected_witness :
    (∃ r, parseDeviceFrame [0xA8, 0x02, 0x00] = some r ∧ r.ok = false) ∧
    IsDeviceQR [0xA8, 0x02, 0x00] = some false ∧
    IsRebootQR [0xA8, 0x02, 0x00] = some false ∧
    IsClearQR [0xA8, 0x02, 0x00] = some false ∧
    IsShutdownQR [0xA8, 0x02, 0x00] = some false :=
  short_frame_rejected [0xA8, 0x02, 0x00] (by decide)

set_option maxRecDepth 8000 in
/-- C13: the example frame is valid.  `crc8` of `A8 02 00` is `0x33`, and
`parseDeviceFrame` accepts `A8 02 00 33` with type `0x02` (Clear) and empty
content; `IsClearQR` is true on it and `IsRebootQR` and `IsShutdownQR` are
false. -/
theorem example_frame_valid :
    crc8 [0xA8, 0x02, 0x00] = 0x33 ∧
    parseDeviceFrame [0xA8, 0x02, 0x00, 0x33] = some ⟨TypeByteClear, [], true⟩ ∧
    TypeByteClear = 0x02 ∧
    IsClearQR [0xA8, 0x02, 0x00, 0x33] = some true ∧
    IsRebootQR [0xA8, 0x02, 0x00, 0x33] = some false ∧
    IsShutdownQR [0xA8, 0x02, 0x00, 0x33] = some false := by
  decide

set_option maxRecDepth 8000 in
/-- C14: each string entry point returns, and returns `true` exactly when the
string has even length, consists of hexadecimal digits (either case) and
decodes to bytes that the byte-level function accepts.  An odd length or a
non-hex character gives `false`, not an error: `"ZZZZ"` gives `false`,
`"A8020033"` and `"a8020033"` give `true`. -/
theorem string_entry_points (s : List Nat) :
    (∃ r, IsDeviceQRString s = some r ∧
      (r = true ↔ s.length % 2 = 0 ∧ (∀ c ∈ s, IsHexDigit c) ∧
        ∃ b, hexDecodeString s = some b ∧ IsDeviceQR b = some true)) ∧
    (∃ r, IsRebootQRString s = some r ∧
      (r = true ↔ s.length % 2 = 0 ∧ (∀ c ∈ s, IsHexDigit c) ∧
        ∃ b, hexDecodeString s = some b ∧ IsRebootQR b = some true)) ∧
    (∃ r, IsClearQRString s = some r ∧
      (r = true ↔ s.length % 2 = 0 ∧ (∀ c ∈ s, IsHexDigit c) ∧
        ∃ b, hexDecodeString s = some b ∧ IsClearQR b = some true)) ∧
    (∃ r, IsShutdownQRString s = some r ∧
      (r = true ↔ s.length % 2 = 0 ∧ (∀ c ∈ s, IsHexDigit c) ∧
        ∃ b, hexDecodeString s = some b ∧ IsShutdownQR b = some true)) ∧
    (s.length % 2 = 1 ∨ (∃ c ∈ s, ¬ IsHexDigit c) →
      IsDeviceQRString s = some false ∧ IsRebootQRString s = some false ∧
      IsClearQRString s = some false ∧ IsShutdownQRString s = some false) ∧
    IsDeviceQRString (asciiBytes "ZZZZ") = some false ∧
    IsDeviceQRString (asciiBytes "A8020033") = some true ∧
    IsDeviceQRString (asciiBytes "a8020033") = some true := by
  refine ⟨?_, ?_, ?_, ?_, ?_, by decide, by decide, by decide⟩
  · exact hex_entry_point IsDeviceQRString IsDeviceQR s
      (fun h => by simp [IsDeviceQRString, h]) (fun b h => by simp [IsDeviceQRString, h])
      isDeviceQR_total
  · exact hex_entry_point IsRebootQRString IsRebootQR s
      (fun h => by simp [IsRebootQRString, h]) (fun b h => by simp [IsRebootQRString, h])
      (isTypeFrame_total _)
  · exact hex_entry_point IsClearQRString IsClearQR s
      (fun h => by simp [IsClearQRString, h]) (fun b h => by simp [IsClearQRString, h])
      (isTypeFrame_total _)
  · exact hex_entry_point IsShutdownQRString IsShutdownQR s
      (fun h => by simp [IsShutdownQRString, h]) (fun b h => by simp [IsShutdownQRString, h])
      (isTypeFrame_total _)
  · intro hbad
    have hnone : hexDecodeString s = none := by
      cases h : hexDecodeString s with
      | none => rfl
      | some b =>
        exfalso
        have hd := (hexDecodeString_isSome s).mp (by rw [h]; rfl)
        rcases hbad with hodd | ⟨c, hc, hnot⟩
        · omega
        · exact hnot (hd.2 c hc)
    simp [IsDeviceQRString, IsRebootQRString, IsClearQRString, IsShutdownQRString, hnone]

set_option maxRecDepth 8000 in
/-- C15 fails on the code: type `0x04`, which the protocol comment lists as an
operation type, is not in `validTypes`, so the frame with type `0x04` and empty
content, `A8 04 00 4D`, is rejected by `IsDeviceQR`. -/
theorem type_four_rejected :
    crc8 [0xA8, 0x04, 0x00] = 0x4D ∧
    IsDeviceQR ([0xA8, 0x04, ([] : List Nat).length] ++ [] ++
      [crc8 ([0xA8, 0x04, ([] : List Nat).length] ++ [])]) = some false := by
  decide

/-- C16: content size is capped at 255 bytes.  An accepted byte sequence has
between 4 and 259 bytes and its content has `f[2] <= 255` bytes; a byte sequence
of more than 259 bytes is rejected; and for a content of 252 to 255 bytes the
frame `[0xA8, t, len(c)] ++ c ++ [crc8(...)]` with `t` in `0x01`, `0x02`, `0x03`
is accepted and gives back `t` and `c`. -/
theorem content_capped_at_255 (f : List Nat) (r : ParseResult) (hf : IsBytes f)
    (h : parseDeviceFrame f = some r) :
    (r.ok = true → 4 ≤ f.length ∧ f.length ≤ 259 ∧
      ∃ n, f[2]? = some n ∧ n ≤ 255 ∧ r.content.length = n) ∧
    (259 < f.length → r.ok = false) ∧
    (∀ (t : Nat) (c : List Nat), t = 0x01 ∨ t = 0x02 ∨ t = 0x03 →
      252 ≤ c.length → c.length ≤ 255 →
      parseDeviceFrame ([0xA8, t, c.length] ++ c ++ [crc8 ([0xA8, t, c.length] ++ c)])
        = some ⟨t, c, true⟩) := by
  have hacc : r.ok = true → 4 ≤ f.length ∧ f.length ≤ 259 ∧
      ∃ n, f[2]? = some n ∧ n ≤ 255 ∧ r.content.length = n := by
    intro hok
    obtain ⟨_, hform⟩ := accepted_frame_form f r h hok
    have hlen : f.length = r.content.length + 4 := by
      rw [hform]
      simp
    have h2 : f[2]? = some r.content.length := by
      rw [hform]
      simp
    have hb : r.content.length < 256 := by
      apply hf
      rw [hform]
      simp
    exact ⟨by omega, by omega, r.content.length, h2, by omega, rfl⟩
  refine ⟨hacc, ?_, ?_⟩
  · intro hlong
    cases hok : r.ok with
    | false => rfl
    | true =>
      have := (hacc hok).2.1
      omega
  · intro t c ht _ _
    have hp := parseDeviceFrame_long 0xA8 t c.length (crc8 (0xA8 :: t :: c.length :: c)) c
    have hv : t ∈ validTypes := by
      simp only [validTypes, TypeByteReboot, TypeByteClear, TypeByteShutdown, List.mem_cons,
        List.mem_singleton, List.not_mem_nil, or_false]
      exact ht
    simp only [HeaderByte, ne_eq, not_true_eq_false, if_false, hv] at hp
    simpa using hp

set_option maxRecDepth 8000 in
theorem content_capped_at_255_witness :
    (true = true → 4 ≤ ([0xA8, 0x01, 0x02, 0x07, 0x09, 0x7E] : List Nat).length ∧
      ([0xA8, 0x01, 0x02, 0x07, 0x09, 0x7E] : List Nat).length ≤ 259 ∧
      ∃ n, ([0xA8, 0x01, 0x02, 0x07, 0x09, 0x7E] : List Nat)[2]? = some n ∧ n ≤ 255 ∧
        ([0x07, 0x09] : List Nat).length = n) ∧
    (259 < ([0xA8, 0x01, 0x02, 0x07, 0x09, 0x7E] : List Nat).length → true = false) ∧
    (∀ (t : Nat) (c : List Nat), t = 0x01 ∨ t = 0x02 ∨ t = 0x03 →
      252 ≤ c.length → c.length ≤ 255 →
      parseDeviceFrame ([0xA8, t, c.length] ++ c ++ [crc8 ([0xA8, t, c.length] ++ c)])
        = some ⟨t, c, true⟩) :=
  content_capped_at_255 [0xA8, 0x01, 0x02, 0x07, 0x09, 0x7E] ⟨0x01, [0x07, 0x09], true⟩
    (by decide) (by decide)

set_option maxRecDepth 8000 in
/-- C17: `isTypeFrame` does no membership check of its own.  For every byte
sequence `f` and byte `w` it returns `true` exactly when `len(f) >= 4`,
`f[0] = 0xA8`, `f[1] = w`, `f[2] = len(f) - 4` and `crc8` of `f` without its
last byte is the last byte.  So for a byte `w` outside `0x01`, `0x02`, `0x03`
there is a byte sequence on which `isTypeFrame` returns `true` while
`parseDeviceFrame` returns `ok = false`; for `w = 0x04` it is
`[0xA8, 0x04, 0x00, crc8([0xA8, 0x04, 0x00])]`. -/
theorem isTypeFrame_no_membership_check (f : List Nat) (w : Nat) :
    (∃ b, isTypeFrame f w = some b ∧
      (b = true ↔ 4 ≤ f.length ∧ f[0]? = some 0xA8 ∧ f[1]? = some w ∧
        f[2]? = some (f.length - 4) ∧ f.getLast? = some (crc8 f.dropLast))) ∧
    (w < 256 → w ≠ 0x01 → w ≠ 0x02 → w ≠ 0x03 →
      ∃ g, IsBytes g ∧ isTypeFrame g w = some true ∧
        ∃ r, parseDeviceFrame g = some r ∧ r.ok = false) ∧
    (isTypeFrame [0xA8, 0x04, 0x00, crc8 [0xA8, 0x04, 0x00]] 0x04 = some true ∧
      ∃ r, parseDeviceFrame [0xA8, 0x04, 0x00, crc8 [0xA8, 0x04, 0x00]] = some r ∧
        r.ok = false) := by
  refine ⟨?_, ?_, by decide, ⟨0x04, [], false⟩, by decide, rfl⟩
  · by_cases h4 : f.length < 4
    · refine ⟨false, isTypeFrame_short f w h4, ?_⟩
      simp only [Bool.false_eq_true, false_iff]
      intro h
      omega
    · obtain ⟨a, t, l, c, k, rfl⟩ := frame_split f (by omega)
      refine ⟨_, isTypeFrame_long a t l k w c, ?_⟩
      have hd : (a :: t :: l :: (c ++ [k])).dropLast = a :: t :: l :: c := by
        rw [show a :: t :: l :: (c ++ [k]) = (a :: t :: l :: c) ++ [k] from rfl,
          List.dropLast_concat]
      have hg : (a :: t :: l :: (c ++ [k])).getLast? = some k := by
        rw [show a :: t :: l :: (c ++ [k]) = (a :: t :: l :: c) ++ [k] from rfl,
          List.getLast?_concat]
      rw [hd, hg, decide_eq_true_iff]
      simp only [List.length_cons, List.length_append, List.length_nil,
        List.getElem?_cons_zero, List.getElem?_cons_succ, Option.some.injEq, HeaderByte]
      constructor
      · rintro ⟨h0, h1, h2, h3⟩
        exact ⟨by omega, h0, h1, by omega, h3.symm⟩
      · rintro ⟨_, h0, h1, h2, h3⟩
        exact ⟨h0, h1, by omega, h3.symm⟩
  · intro hw h1 h2 h3
    refine ⟨0xA8 :: w :: 0 :: ([] ++ [crc8 (0xA8 :: w :: 0 :: [])]), ?_, ?_, ?_⟩
    · intro b hb
      simp only [List.nil_append, List.mem_cons, List.mem_singleton, List.not_mem_nil,
        or_false] at hb
      rcases hb with rfl | rfl | rfl | rfl
      · decide
      · exact hw
      · decide
      · exact crc8_lt _
    · rw [isTypeFrame_long]
      simp [HeaderByte]
    · refine ⟨_, parseDeviceFrame_long _ _ _ _ _, ?_⟩
      have hv : w ∉ validTypes := by
        simp only [validTypes, TypeByteReboot, TypeByteClear, TypeByteShutdown, List.mem_cons,
          List.mem_singleton, List.not_mem_nil, or_false]
        tauto
      simp [HeaderByte, hv]

/-- C18: on every byte sequence at most one of `IsRebootQR`, `IsClearQR`,
`IsShutdownQR` is true, and `IsDeviceQR` is true exactly when exactly one of
them is. -/
theorem type_predicates_exclusive (f : List Nat) :
    ∃ d r c s : Bool,
      IsDeviceQR f = some d ∧ IsRebootQR f = some r ∧
      IsClearQR f = some c ∧ IsShutdownQR f = some s ∧
      ¬ (r = true ∧ c = true) ∧ ¬ (r = true ∧ s = true) ∧ ¬ (c = true ∧ s = true) ∧
      (d = true ↔
        (r = true ∧ c = false ∧ s = false) ∨ (r = false ∧ c = true ∧ s = false) ∨
        (r = false ∧ c = false ∧ s = true)) := by
  by_cases h4 : f.length < 4
  · refine ⟨false, false, false, false, ?_, isTypeFrame_short f _ h4, isTypeFrame_short f _ h4,
      isTypeFrame_short f _ h4, by simp, by simp, by simp, by simp⟩
    simp [IsDeviceQR, parseDeviceFrame_short f h4]
  obtain ⟨a, t, l, c, k, rfl⟩ := frame_split f (by omega)
  refine ⟨_, _, _, _, by rw [IsDeviceQR, parseDeviceFrame_long]; rfl,
    isTypeFrame_long a t l k _ c, isTypeFrame_long a t l k _ c, isTypeFrame_long a t l k _ c,
    ?_, ?_, ?_, ?_⟩
  · simp only [decide_eq_true_iff, TypeByteReboot, TypeByteClear]
    rintro ⟨⟨_, h1, _⟩, ⟨_, h2, _⟩⟩
    omega
  · simp only [decide_eq_true_iff, TypeByteReboot, TypeByteShutdown]
    rintro ⟨⟨_, h1, _⟩, ⟨_, h2, _⟩⟩
    omega
  · simp only [decide_eq_true_iff, TypeByteClear, TypeByteShutdown]
    rintro ⟨⟨_, h1, _⟩, ⟨_, h2, _⟩⟩
    omega
  · simp only [decide_eq_true_iff, decide_eq_false_iff_not, TypeByteReboot, TypeByteClear,
      TypeByteShutdown]
    by_cases ha : a ≠ HeaderByte
    · simp [ha]
    by_cases ht : t ∉ validTypes
    · have ht' := ht
      simp only [validTypes, TypeByteReboot, TypeByteClear, TypeByteShutdown, List.mem_cons,
        List.mem_singleton, List.not_mem_nil, or_false, not_or] at ht'
      simp [ha, ht, ht'.1, ht'.2.1, ht'.2.2]
    by_cases hl : l ≠ c.length
    · simp [ha, ht, hl]
    by_cases hc : crc8 (a :: t :: l :: c) ≠ k
    · simp [ha, ht, hl, hc]
    simp only [ha, ht, hl, hc, if_false]
    simp only [ne_eq, not_not] at ha ht hl hc
    simp only [validTypes, TypeByteReboot, TypeByteClear, TypeByteShutdown, List.mem_cons,
      List.mem_singleton, List.not_mem_nil, or_false] at ht
    subst ha hl hc
    simp only [true_and, and_true, Option.map_some', Option.some.injEq, true_iff]
    omega

/-- C19: zero residue.  For every byte sequence `d`, `crc8 (d ++ [crc8 d])` is
`0x00`; so `crc8` of a whole frame accepted by `parseDeviceFrame`, checksum byte
included, is `0x00`. -/
theorem crc8_zero_residue :
    (∀ d : List Nat, crc8 (d ++ [crc8 d]) = 0x00) ∧
    (∀ (f : List Nat) (r : ParseResult),
      parseDeviceFrame f = some r → r.ok = true → crc8 f = 0x00) := by
  have hres : ∀ d : List Nat, crc8 (d ++ [crc8 d]) = 0x00 := by
    intro d
    have h0 : crc8Bit 0 = 0 := by decide
    unfold crc8
    rw [List.foldl_append, List.foldl_cons, List.foldl_nil, crc8Byte_eq, Nat.xor_self]
    simp only [h0]
  refine ⟨hres, ?_⟩
  intro f r h hok
  obtain ⟨_, hform⟩ := accepted_frame_form f r h hok
  rw [hform]
  exact hres (0xA8 :: r.typ :: r.content.length :: r.content)

/-- C20: the encoding is canonical.  If `parseDeviceFrame` accepts `f` and `g`
and returns the same type and the same content for both, then `f = g`. -/
theorem parseDeviceFrame_injective (f g : List Nat) (rf rg : ParseResult)
    (hf : parseDeviceFrame f = some rf) (hg : parseDeviceFrame g = some rg)
    (hokf : rf.ok = true) (hokg : rg.ok = true)
    (htyp : rf.typ = rg.typ) (hcontent : rf.content = rg.content) :
    f = g := by
  obtain ⟨_, hformf⟩ := accepted_frame_form f rf hf hokf
  obtain ⟨_, hformg⟩ := accepted_frame_form g rg hg hokg
  rw [hformf, hformg, htyp, hcontent]

set_option maxRecDepth 8000 in
theorem parseDeviceFrame_injective_witness :
    ([0xA8, 0x01, 0x02, 0x07, 0x09, 0x7E] : List Nat) = [0xA8, 0x01, 0x02, 0x07, 0x09, 0x7E] :=
  parseDeviceFrame_injective [0xA8, 0x01, 0x02, 0x07, 0x09, 0x7E]
    [0xA8, 0x01, 0x02, 0x07, 0x09, 0x7E] ⟨0x01, [0x07, 0x09], true⟩ ⟨0x01, [0x07, 0x09], true⟩
    (by decide) (by decide) rfl rfl rfl rfl

end QrProtoc
